import Mathlib

/-!
Verification of the field-extraction scripts of this repository
(scripts/extract_fields.py and scripts/extract_openapi_fields.py).

Strings are modeled as `List Char` (ASCII inputs) for the line-oriented
struct extractor, and as Lean `String` keys/values inside the JSON model of
the schema extractor.  Each definition mirrors one Python function or a
contiguous fragment of one; the mirrored source lines are named in the doc
comments.
-/

set_option maxRecDepth 100000

/-- Characters Python's str.strip and str.split treat as whitespace
(the ASCII whitespace class: space, tab, newline, carriage return,
vertical tab, form feed). -/
def pyIsSpace (c : Char) : Bool :=
  c = ' ' || c = '\t' || c = '\n' || c = '\r' || c = Char.ofNat 11 || c = Char.ofNat 12

/-- Characters the regex class \w matches on the ASCII inputs scanned here. -/
def isWordChar (c : Char) : Bool := c.isAlphanum || c = '_'

def backtickChar : Char := Char.ofNat 96
def quoteChar : Char := Char.ofNat 34
def lbraceChar : Char := Char.ofNat 123
def rbraceChar : Char := Char.ofNat 125

/-- Python str.split(sep) for a one-character separator: the pieces between
occurrences of sep, in order, empties included. -/
def splitOnChar (sep : Char) : List Char → List (List Char)
  | [] => [[]]
  | c :: rest =>
    let r := splitOnChar sep rest
    if c = sep then [] :: r
    else (c :: r.headD []) :: r.tail

/-- Python str.strip(): drop leading and trailing whitespace. -/
def pyStrip (l : List Char) : List Char :=
  ((l.dropWhile pyIsSpace).reverse.dropWhile pyIsSpace).reverse

/-- Worker for pySplitWs, accumulating the current token reversed. -/
def splitWsGo : List Char → List Char → List (List Char)
  | [], acc => if acc = [] then [] else [acc.reverse]
  | c :: rest, acc =>
    if pyIsSpace c then
      if acc = [] then splitWsGo rest [] else acc.reverse :: splitWsGo rest []
    else splitWsGo rest (c :: acc)

/-- Python str.split() with no argument: split on whitespace runs and drop
empty tokens. -/
def pySplitWs (l : List Char) : List (List Char) := splitWsGo l []

/-- Boolean test that pat is a prefix of l (Python str.startswith). -/
def isPref : List Char → List Char → Bool
  | [], _ => true
  | _ :: _, [] => false
  | p :: ps, c :: cs => c = p && isPref ps cs

/-- Python substring containment, pat in l. -/
def hasSubstr (pat : List Char) : List Char → Bool
  | [] => pat.isEmpty
  | c :: rest => isPref pat (c :: rest) || hasSubstr pat rest

/-- Match an exact literal at the front of a text, returning the remainder. -/
def dropLit : List Char → List Char → Option (List Char)
  | [], l => some l
  | _ :: _, [] => none
  | p :: ps, c :: cs => if c = p then dropLit ps cs else none

/-- A nonempty maximal run of characters satisfying p at the front of l
(a greedy one-or-more character-class item of a regex). -/
def span1 (p : Char → Bool) (l : List Char) : Option (List Char × List Char) :=
  match l.takeWhile p with
  | [] => none
  | t => some (t, l.dropWhile p)

/-- One attempt, at the head of l, of the struct-header regex of
extract_fields.py line 12 (type, whitespace, a word, whitespace, struct,
optional whitespace, an opening brace, a nonempty brace-free body, a closing
brace).  All items are character classes disjoint from their successors, so
the greedy match is deterministic.  Returns (name, body, rest after the
match). -/
def matchStructAt (l : List Char) : Option (List Char × List Char × List Char) :=
  match dropLit (("type").data) l with
  | none => none
  | some r1 =>
    match span1 pyIsSpace r1 with
    | none => none
    | some (_, r2) =>
      match span1 isWordChar r2 with
      | none => none
      | some (name, r3) =>
        match span1 pyIsSpace r3 with
        | none => none
        | some (_, r4) =>
          match dropLit (("struct").data) r4 with
          | none => none
          | some r5 =>
            match r5.dropWhile pyIsSpace with
            | [] => none
            | c :: r7 =>
              if c = lbraceChar then
                match span1 (fun x => x != rbraceChar) r7 with
                | none => none
                | some (body, r8) =>
                  match r8 with
                  | [] => none
                  | c2 :: r9 => if c2 = rbraceChar then some (name, body, r9) else none
              else none

/-- All non-overlapping matches of the struct-header regex, scanning left to
right (re.finditer): try a match at every position, and continue after the
end of each match.  The fuel bounds the scan; the wrapper passes the text
length, which always suffices because every step consumes at least one
character. -/
def findStructsGo : Nat → List Char → List (List Char × List Char)
  | 0, _ => []
  | _, [] => []
  | Nat.succ fuel, c :: rest =>
    match matchStructAt (c :: rest) with
    | some (name, body, r) => (name, body) :: findStructsGo fuel r
    | none => findStructsGo fuel rest

/-- struct_pattern.finditer over a whole text, as (name, body) pairs. -/
def findStructs (l : List Char) : List (List Char × List Char) :=
  findStructsGo l.length l

def jsonTagLit : List Char := ("json:").data ++ [quoteChar]

/-- One attempt, at the head of l, of the json tag regex of
extract_fields.py line 13 (literal json:, a quote, a greedy quote-free run,
a closing quote), returning the captured group. -/
def matchJsonAt (l : List Char) : Option (List Char) :=
  match dropLit jsonTagLit l with
  | none => none
  | some r =>
    match r.dropWhile (fun c => c != quoteChar) with
    | [] => none
    | _ :: _ => some (r.takeWhile (fun c => c != quoteChar))

/-- re.search of the json tag pattern: the leftmost position with a match
wins (extract_fields.py line 141). -/
def searchJsonTag : List Char → Option (List Char)
  | [] => none
  | c :: rest =>
    match matchJsonAt (c :: rest) with
    | some t => some t
    | none => searchJsonTag rest

def commentMark : List Char := ("//").data
def optMarker : List Char := ("+optional").data

/-- The tag text of a field line (extract_fields.py lines 136-138): when the
line holds a backtick, Python evaluates line.split on the backtick and takes
element 1; none models the IndexError that indexing would raise were that
element missing (shown impossible below), and the code leaves the tag text
empty when no backtick occurs. -/
def tagsOf (l : List Char) : Option (List Char) :=
  if backtickChar ∈ l then (splitOnChar backtickChar l).get? 1 else some []

/-- One output row of extract_struct_fields (the dict built at lines
151-157).  The code stores the strings true and false in the Optional
column; they are modeled as Bool. -/
structure SField where
  name : List Char
  type : List Char
  jsonTag : List Char
  optional : Bool
  structTags : List Char
deriving DecidableEq

/-- The record appended for a field line l (already stripped) whose first two
whitespace tokens are p0 and p1, under pending optional flag isOpt
(extract_fields.py lines 128-157). -/
def mkSField (p0 p1 l : List Char) (isOpt : Bool) : SField :=
  let tags := (tagsOf l).getD []
  { name := p0
    type := p1
    jsonTag := (searchJsonTag tags).getD []
    optional := isOpt || (!tags.isEmpty && hasSubstr optMarker tags)
    structTags := tags }

/-- The line loop of extract_struct_fields (lines 102-161): walk the body
lines carrying the pending comment block and the pending optional flag.
The first two match arms mirror the embedded-field test of line 121; the
empty arm is unreachable for a non-blank stripped line (which always splits
into at least one token; Python would raise an IndexError there). -/
def processLines : List (List Char) → List (List Char) → Bool → List SField
  | [], _, _ => []
  | line :: rest, cblock, isOpt =>
    let l := pyStrip line
    if l = [] then processLines rest cblock isOpt
    else if isPref commentMark l then
      processLines rest (cblock ++ [l]) (isOpt || hasSubstr optMarker l)
    else
      match pySplitWs l with
      | [] => processLines rest [] false
      | [_] => processLines rest [] false
      | p0 :: p1 :: _ =>
        if p0 = p1 then processLines rest [] false
        else mkSField p0 p1 l isOpt :: processLines rest [] false

/-- The body walk of one struct block (lines 96-161): split on newlines and
run the line loop with an empty pending state. -/
def processStructBody (body : List Char) : List SField :=
  processLines (splitOnChar '\n' body) [] false

/-- extract_struct_fields (lines 78-163) on the text of a file, whose read
the caller performs: every struct block whose declared name equals the
target contributes its rows, in finditer order; mismatching blocks are
skipped by the continue of line 93. -/
def extract_struct_fields (content : List Char) (structName : List Char) : List SField :=
  (findStructs content).foldl
    (fun acc nb => if nb.1 = structName then acc ++ processStructBody nb.2 else acc) []

/-- Modelled from the claim wording, for comparison with the source-derived
extract_struct_fields: keep only the first block in document order whose
declared name equals the target. -/
def specFirstBlockFields (content : List Char) (structName : List Char) : List SField :=
  match (findStructs content).find? (fun nb => nb.1 = structName) with
  | some nb => processStructBody nb.2
  | none => []

/-- A file text with one struct holding one tagged field and no optional
marker anywhere. -/
def c1content : List Char :=
  ("type Foo struct \x7b\n\tName string `json:\x22name\x22`\n\x7d").data

/-- A file text with one struct holding one untagged field. -/
def c2content : List Char :=
  ("type Foo struct \x7b\n\tName string\n\x7d").data

/-- A file text declaring two structs with the same name, one field each. -/
def c4content : List Char :=
  ("type Foo struct \x7bA int\n\x7d type Foo struct \x7bB int\n\x7d").data

/-! ### Filesystem model for find_struct_file (extract_fields.py lines 22-76) -/

/-- The two Python exception classes that can reach find_struct_file from the
filesystem layer: OSError (FileNotFoundError, NotADirectoryError, ...) from
os.listdir and open, and UnicodeDecodeError from reading a file that does
not decode as text. -/
inductive PyErr where
  | osError : PyErr
  | unicodeDecodeError : PyErr
deriving DecidableEq

/-- A snapshot of the scanned tree: directory listings keyed by path, and
file contents keyed by path (none stands for a file whose read raises
UnicodeDecodeError). -/
structure PyFS where
  dirs : List (List Char × List (List Char))
  files : List (List Char × Option (List Char))

/-- First-match association lookup (Python dict-of-paths access). -/
def pyLookup {α : Type} : List (List Char × α) → List Char → Option α
  | [], _ => none
  | (k, v) :: rest, key => if k = key then some v else pyLookup rest key

/-- os.listdir: the entries of a directory, or OSError when the path is not
a directory of the snapshot. -/
def pyListdir (fs : PyFS) (p : List Char) : Except PyErr (List (List Char)) :=
  match pyLookup fs.dirs p with
  | some es => Except.ok es
  | none => Except.error PyErr.osError

/-- open(path).read(): the decoded content, UnicodeDecodeError for a binary
file, OSError when the path is no file of the snapshot. -/
def pyRead (fs : PyFS) (p : List Char) : Except PyErr (List Char) :=
  match pyLookup fs.files p with
  | some (some c) => Except.ok c
  | some none => Except.error PyErr.unicodeDecodeError
  | none => Except.error PyErr.osError

/-- os.path.exists: true for files and directories of the snapshot. -/
def pyExists (fs : PyFS) (p : List Char) : Bool :=
  (pyLookup fs.files p).isSome || (pyLookup fs.dirs p).isSome

/-- os.path.isdir. -/
def pyIsDir (fs : PyFS) (p : List Char) : Bool :=
  (pyLookup fs.dirs p).isSome

/-- os.path.join for one relative component. -/
def pjoin (a b : List Char) : List Char := a ++ '/' :: b

/-- pat is a suffix of l, as a Bool. -/
def isSuffixB (pat l : List Char) : Bool := isPref pat.reverse l.reverse

def pkgApisDir : List Char := ("pkg/apis").data
def stagingApiDir : List Char := ("staging/src/k8s.io/api").data
def typesGoName : List Char := ("types.go").data
def corePath1 : List Char := ("pkg/apis/core/types.go").data
def corePath2 : List Char := ("staging/src/k8s.io/api/core/v1/types.go").data
def testStr : List Char := ("test").data
def generatedStr : List Char := ("generated").data
def goSuffix : List Char := (".go").data

/-- glob.glob of dir/**/*.go with recursive=True, modeled over the snapshot:
every existing path under dir whose name ends in .go, files and directories
alike (glob matches directories named .go too; the fallback loop's open of
such a directory then raises IsADirectoryError, an OSError).  glob itself
raises nothing and lists only existing paths. -/
def globGo (fs : PyFS) (dir : List Char) : List (List Char) :=
  (fs.files.map Prod.fst ++ fs.dirs.map Prod.fst).filter
    (fun p => isPref (dir ++ ['/']) p && isSuffixB goSuffix p)

/-- The expected-path computation of find_struct_file (lines 24-48): two
hardcoded paths for the core group; for a named group, an os.listdir probe
of both root directories (which raises when a root is missing), a types.go
candidate under pkg/apis, and one under each version directory of the
staging tree. -/
def computeSearchPaths (fs : PyFS) (group : List Char) : Except PyErr (List (List Char)) :=
  if group = [] then Except.ok [corePath1, corePath2]
  else
    let g0 := (splitOnChar '.' group).headD []
    match pyListdir fs pkgApisDir with
    | Except.error e => Except.error e
    | Except.ok e1 =>
      let sp1 :=
        if g0 ∈ e1 then
          let p := pjoin (pjoin pkgApisDir g0) typesGoName
          if pyExists fs p then [p] else []
        else []
      match pyListdir fs stagingApiDir with
      | Except.error e => Except.error e
      | Except.ok e2 =>
        if g0 ∈ e2 then
          match pyListdir fs (pjoin stagingApiDir g0) with
          | Except.error e => Except.error e
          | Except.ok versions =>
            Except.ok (sp1 ++
              (versions.filter (fun v => pyIsDir fs (pjoin (pjoin stagingApiDir g0) v))).filterMap
                (fun v =>
                  let p := pjoin (pjoin (pjoin stagingApiDir g0) v) typesGoName
                  if pyExists fs p then some p else none))
        else Except.ok (sp1 ++ [])

/-- The first loop of find_struct_file (lines 51-58): scan the expected
paths; for an existing path, read it (any read failure escapes) and return
it when a struct block named kind occurs. -/
def scanPathsForStruct (fs : PyFS) (kind : List Char) :
    List (List Char) → Except PyErr (Option (List Char))
  | [] => Except.ok none
  | p :: rest =>
    if pyExists fs p then
      match pyRead fs p with
      | Except.error e => Except.error e
      | Except.ok c =>
        if (findStructs c).any (fun nb => nb.1 = kind) then Except.ok (some p)
        else scanPathsForStruct fs kind rest
    else scanPathsForStruct fs kind rest

/-- The fallback loop of find_struct_file over one glob result (lines
61-74): skip paths containing test or generated, read each file catching
exactly UnicodeDecodeError (skipping that file), and return the first file
with a struct block named kind. -/
def scanGlobForStruct (fs : PyFS) (kind : List Char) :
    List (List Char) → Except PyErr (Option (List Char))
  | [] => Except.ok none
  | p :: rest =>
    if hasSubstr testStr p || hasSubstr generatedStr p then scanGlobForStruct fs kind rest
    else
      match pyRead fs p with
      | Except.error PyErr.unicodeDecodeError => scanGlobForStruct fs kind rest
      | Except.error e => Except.error e
      | Except.ok c =>
        if (findStructs c).any (fun nb => nb.1 = kind) then Except.ok (some p)
        else scanGlobForStruct fs kind rest

/-- find_struct_file (lines 22-76): expected paths first, then the fallback
scan of both api directories; ok none models the Python return of None. -/
def find_struct_file (fs : PyFS) (group kind : List Char) :
    Except PyErr (Option (List Char)) :=
  match computeSearchPaths fs group with
  | Except.error e => Except.error e
  | Except.ok sp =>
    match scanPathsForStruct fs kind sp with
    | Except.error e => Except.error e
    | Except.ok (some p) => Except.ok (some p)
    | Except.ok none =>
      match scanGlobForStruct fs kind (globGo fs pkgApisDir) with
      | Except.error e => Except.error e
      | Except.ok (some p) => Except.ok (some p)
      | Except.ok none =>
        match scanGlobForStruct fs kind (globGo fs stagingApiDir) with
        | Except.error e => Except.error e
        | Except.ok (some p) => Except.ok (some p)
        | Except.ok none => Except.ok none

/-- A snapshot with no directories and no files at all. -/
def emptyFS : PyFS := { dirs := [], files := [] }

/-- A snapshot holding a directory whose name ends in .go under pkg/apis
(and the two root directories, empty), and no files. -/
def dirGoFS : PyFS :=
  { dirs := [(pkgApisDir, [("foo.go").data]),
             (stagingApiDir, []),
             (pjoin pkgApisDir (("foo.go").data), [])],
    files := [] }

/-! ### JSON model for get_fields_from_schema (extract_openapi_fields.py) -/

/-- A JSON value as produced by json.load. -/
inductive J where
  | null : J
  | bool : Bool → J
  | num : Int → J
  | str : String → J
  | arr : List J → J
  | obj : List (String × J) → J

def kProperties : String := "properties"
def kRequired : String := "required"
def kAllOf : String := "allOf"
def kType : String := "type"
def kItems : String := "items"
def kRef : String := "$ref"
def kDescription : String := "description"
def kApiVersion : String := "apiVersion"
def kKind : String := "kind"
def kArray : String := "array"

/-- First-match key lookup in an object's entry list. -/
def jLookup : List (String × J) → String → Option J
  | [], _ => none
  | (k, v) :: rest, key => if k = key then some v else jLookup rest key

/-- Python dict indexing and containment: a key's value in an object, none
for absent keys and for non-objects. -/
def jGet : J → String → Option J
  | J.obj kvs, key => jLookup kvs key
  | _, _ => none

def jHasKey (j : J) (key : String) : Bool := (jGet j key).isSome

def jGetD (j : J) (key : String) : J := (jGet j key).getD J.null

/-- The string content of a JSON value; empty for non-strings (where the
Python code would carry a non-string object into a string position, an
ill-formed schema it never meets). -/
def jStrD : J → String
  | J.str v => v
  | _ => ""

/-- The element list of a JSON value, empty for non-arrays. -/
def jArrD : J → List J
  | J.arr xs => xs
  | _ => []

/-- Python equality of a string against a JSON value (a non-string value
never equals a string). -/
def jEqStr (name : String) : J → Bool
  | J.str v => v = name
  | _ => false

/-- prop_name in schema of required (extract_openapi_fields.py line 34). -/
def jMemStr (name : String) (j : J) : Bool := (jArrD j).any (jEqStr name)

/-- schema.get of properties, then .items(): the property list in document
order (lines 19-20). -/
def jProperties (schema : J) : List (String × J) :=
  match jGet schema kProperties with
  | some (J.obj kvs) => kvs
  | _ => []

/-- ref.split on slash, last element (lines 40, 43, 50, 52). -/
def lastSlashSeg (s : String) : String :=
  String.mk ((splitOnChar '/' s.data).getLastD [])

/-- The first allOf element's $ref when the allOf list is nonempty and its
first element carries one: the guard of lines 41 and 51. -/
def allOfRefOf (d : J) : Option J :=
  match jGet d kAllOf with
  | some (J.arr (h :: _)) => jGet h kRef
  | _ => none

/-- The item type of an array-typed property (lines 47-54): its ref's last
segment, else its allOf-ref's last segment, else its plain type, else
empty. -/
def itemTypeOf (items : J) : String :=
  match jGet items kRef with
  | some r => lastSlashSeg (jStrD r)
  | none =>
    match allOfRefOf items with
    | some r => lastSlashSeg (jStrD r)
    | none =>
      match jGet items kType with
      | some t => jStrD t
      | none => ""

/-- The type descriptor of a property (lines 37-56). -/
def typeOf (d : J) : String :=
  match jGet d kRef with
  | some r => lastSlashSeg (jStrD r)
  | none =>
    match allOfRefOf d with
    | some r => lastSlashSeg (jStrD r)
    | none =>
      match jGet d kType with
      | some t =>
        if jStrD t = kArray then
          if jHasKey d kItems then ("array of ") ++ itemTypeOf (jGetD d kItems)
          else jStrD t
        else jStrD t
      | none => ""

/-- The field_path computation of line 25. -/
def extPath (path name : String) : String :=
  if path = "" then name else path ++ (".") ++ name

/-- One row of the schema extractor's output (the dict of lines 59-67); the
Optional strings true and false are modeled as Bool. -/
structure FieldRec where
  group : String
  kind : String
  path : String
  type : String
  jsonTag : String
  optional : Bool
  description : String
deriving DecidableEq

/-- The record appended for property (name, d) of schema at field path fp
(lines 28-67): the wire tag is the property name, optional is true unless a
required list of this schema level names the property, the description
defaults to empty. -/
def mkField (g k : String) (schema : J) (fp name : String) (d : J) : FieldRec :=
  { group := g
    kind := k
    path := fp
    type := typeOf d
    jsonTag := name
    optional := !(jHasKey schema kRequired && jMemStr name (jGetD schema kRequired))
    description := jStrD (jGetD d kDescription) }

/-- get_fields_from_schema (lines 13-79), fuel-indexed: the records the
Python call appends to its accumulator, in append order (each property's own
record, then its nested records, then the next property).  Root-level
apiVersion and kind properties are skipped at an empty path prefix (line
22); recursion follows the chain of lines 69-77: own properties, else every
allOf member with properties at the same extended path, else array items at
the path suffixed with brackets.  Every recursive call descends into a
strict subterm of the schema, so any fuel at least the schema's structural
depth computes the Python value; the wrapper below passes sizeOf, which
always suffices. -/
def getFieldsFuel (g k : String) : Nat → J → String → List FieldRec
  | 0, _, _ => []
  | Nat.succ fuel, schema, path =>
    ((jProperties schema).map (fun p =>
      if (p.1 = kApiVersion ∨ p.1 = kKind) ∧ path = "" then []
      else
        let fp := extPath path p.1
        mkField g k schema fp p.1 p.2 ::
          (if jHasKey p.2 kProperties then getFieldsFuel g k fuel p.2 fp
           else if jHasKey p.2 kAllOf then
             (((jArrD (jGetD p.2 kAllOf)).filter (fun sub => jHasKey sub kProperties)).map
               (fun sub => getFieldsFuel g k fuel sub fp)).flatten
           else if jHasKey p.2 kItems && jHasKey (jGetD p.2 kItems) kProperties then
             getFieldsFuel g k fuel (jGetD p.2 kItems) (fp ++ ("[]"))
           else []))).flatten

mutual
/-- A computable structural size of a JSON value, bounding the recursion
depth of the schema walk. -/
def jSize : J → Nat
  | J.null => 1
  | J.bool _ => 1
  | J.num _ => 1
  | J.str _ => 1
  | J.arr xs => 1 + jSizeL xs
  | J.obj kvs => 1 + jSizeO kvs

def jSizeL : List J → Nat
  | [] => 0
  | x :: xs => jSize x + jSizeL xs

def jSizeO : List (String × J) → Nat
  | [] => 0
  | kv :: kvs => jSize kv.2 + jSizeO kvs
end

/-- get_fields_from_schema with the always-sufficient fuel. -/
def get_fields_from_schema (g k : String) (schema : J) (path : String) : List FieldRec :=
  getFieldsFuel g k (jSize schema) schema path

/-- The root schema of spec testable property 6: one property a of type
string, required. -/
def c5schema : J :=
  J.obj [(kProperties, J.obj [(("a"), J.obj [(kType, J.str ("string"))])]),
         (kRequired, J.arr [J.str ("a")])]

/-- The array-of-ref schema of spec testable property 7. -/
def c8schema : J :=
  J.obj [(kProperties, J.obj [(("items"), J.obj
    [(kType, J.str kArray),
     (kItems, J.obj [(kRef, J.str ("#/components/schemas/Foo"))])])])]

/-- A root schema whose single property has the empty name and an allOf
member declaring one property x. -/
def c7schema : J :=
  J.obj [(kProperties, J.obj [((""), J.obj
    [(kAllOf, J.arr [J.obj [(kProperties, J.obj
      [(("x"), J.obj [(kType, J.str ("string"))])])]])])])]

/-- A root schema whose property spec has an allOf member declaring one
property x. -/
def c7schemaGood : J :=
  J.obj [(kProperties, J.obj [(("spec"), J.obj
    [(kAllOf, J.arr [J.obj [(kProperties, J.obj
      [(("x"), J.obj [(kType, J.str ("string"))])])]])])])]


/-! ### Supporting lemmas for the struct-body extractor -/

theorem splitOnChar_ne_nil (sep : Char) (l : List Char) : splitOnChar sep l ≠ [] := by
  cases l with
  | nil => simp [splitOnChar]
  | cons c rest =>
    by_cases h : c = sep <;> simp [splitOnChar, h]

theorem splitOnChar_length_pos (sep : Char) (l : List Char) (h : sep ∈ l) :
    1 < (splitOnChar sep l).length := by
  induction l with
  | nil => cases h
  | cons c rest ih =>
    by_cases hc : c = sep
    · simp only [splitOnChar, if_pos hc, List.length_cons]
      have := splitOnChar_ne_nil sep rest
      cases hsp : splitOnChar sep rest with
      | nil => exact absurd hsp this
      | cons x xs => simp [hsp]
    · rcases List.mem_cons.mp h with he | hm
      · exact absurd he.symm hc
      · simp only [splitOnChar, if_neg hc, List.length_cons]
        have h2 := ih hm
        cases hsp : splitOnChar sep rest with
        | nil => exact absurd hsp (splitOnChar_ne_nil sep rest)
        | cons x xs =>
          rw [hsp] at h2
          simp only [List.length_cons] at h2
          simp [hsp]
          omega

theorem splitOnChar_not_mem (sep : Char) (l : List Char) (h : sep ∉ l) :
    splitOnChar sep l = [l] := by
  induction l with
  | nil => rfl
  | cons c rest ih =>
    have hc : ¬(c = sep) := fun e => h (e ▸ List.mem_cons_self c rest)
    have hrest : sep ∉ rest := fun e => h (List.mem_cons_of_mem c e)
    simp [splitOnChar, if_neg hc, ih hrest]

theorem splitOnChar_append_sep (sep : Char) (a b : List Char) (ha : sep ∉ a) :
    splitOnChar sep (a ++ sep :: b) = a :: splitOnChar sep b := by
  induction a with
  | nil => simp [splitOnChar]
  | cons c r ih =>
    have hc : ¬(c = sep) := fun e => ha (e ▸ List.mem_cons_self c r)
    have hr : sep ∉ r := fun e => ha (List.mem_cons_of_mem c e)
    have h2 := ih hr
    simp only [List.cons_append, splitOnChar, List.append_eq]
    rw [h2]
    simp [if_neg hc]

theorem tagsOf_single_backtick (a b : List Char)
    (ha : backtickChar ∉ a) (hb : backtickChar ∉ b) :
    tagsOf (a ++ backtickChar :: b) = some b := by
  have hmem : backtickChar ∈ a ++ backtickChar :: b :=
    List.mem_append_right a (List.mem_cons_self _ _)
  rw [tagsOf, if_pos hmem, splitOnChar_append_sep _ _ _ ha, splitOnChar_not_mem _ _ hb]
  rfl

theorem tagsOf_isSome_of_backtick (l : List Char) (h : backtickChar ∈ l) :
    (tagsOf l).isSome := by
  rw [tagsOf, if_pos h]
  have hlen : 1 < (splitOnChar backtickChar l).length := splitOnChar_length_pos _ _ h
  rw [Option.isSome_iff_ne_none]
  intro hnone
  rw [List.get?_eq_none] at hnone
  omega

/-- The field-emission step of the line loop: a stripped line that is not
blank, not a comment, and splits into two distinct leading tokens appends
exactly one record and resets the pending state. -/
theorem processLines_field_step (line : List Char) (rest : List (List Char))
    (cblock : List (List Char)) (isOpt : Bool) (p0 p1 : List Char) (ps : List (List Char))
    (hsplit : pySplitWs (pyStrip line) = p0 :: p1 :: ps)
    (hne : p0 ≠ p1)
    (hcomment : isPref commentMark (pyStrip line) = false) :
    processLines (line :: rest) cblock isOpt =
      mkSField p0 p1 (pyStrip line) isOpt :: processLines rest [] false := by
  have hnz : ¬(pyStrip line = []) := by
    intro h
    rw [h] at hsplit
    simp [pySplitWs, splitWsGo] at hsplit
  simp only [processLines, if_neg hnz, hcomment, Bool.false_eq_true, if_false, hsplit]
  rw [if_neg hne]

/-! ### Claims C1, C2, C4 (struct-body extractor) -/

/-- C1, counterexample: a file text containing no optional marker anywhere,
whose single field is nevertheless emitted with optional = false; the claim
predicts optional = true for such a field. -/
theorem c1_unmarked_optional_cex :
    (extract_struct_fields c1content (("Foo").data)).map SField.optional = [false] ∧
    hasSubstr optMarker c1content = false := by decide

/-- C1, amended: a field declaration line whose preceding comment block
contains no optional marker (so the pending flag is false when the line is
reached) and whose backtick tag text contains no optional marker is emitted
with optional = false; optional defaults to false and becomes true only when
an optional marker is observed. -/
theorem c1_unmarked_optional_false (line : List Char) (rest : List (List Char))
    (cblock : List (List Char)) (p0 p1 : List Char) (ps : List (List Char))
    (hsplit : pySplitWs (pyStrip line) = p0 :: p1 :: ps)
    (hne : p0 ≠ p1)
    (hcomment : isPref commentMark (pyStrip line) = false)
    (htags : hasSubstr optMarker ((tagsOf (pyStrip line)).getD []) = false) :
    processLines (line :: rest) cblock false =
      mkSField p0 p1 (pyStrip line) false :: processLines rest [] false ∧
    (mkSField p0 p1 (pyStrip line) false).optional = false := by
  refine ⟨processLines_field_step line rest cblock false p0 p1 ps hsplit hne hcomment, ?_⟩
  simp [mkSField, htags]

theorem c1_unmarked_optional_false_witness :
    processLines [("\tName string").data] [] false =
      mkSField (("Name").data) (("string").data) (pyStrip (("\tName string").data)) false
        :: processLines [] [] false ∧
    (mkSField (("Name").data) (("string").data) (pyStrip (("\tName string").data)) false).optional
      = false :=
  c1_unmarked_optional_false (("\tName string").data) [] [] (("Name").data) (("string").data) []
    (by decide) (by decide) (by decide) (by decide)

/-- C2, counterexample: a field declaration line with no backtick region is
emitted with an empty wire tag, not with the field name as the claim
predicts. -/
theorem c2_tag_default_cex :
    (extract_struct_fields c2content (("Foo").data)).map SField.jsonTag = [[]] ∧
    (extract_struct_fields c2content (("Foo").data)).map SField.name = [("Name").data] ∧
    ([] : List Char) ≠ ("Name").data := by decide

/-- C2, amended: a field declaration line whose tag text yields no match of
the json tag pattern (in particular a line with no backtick region, whose
tag text is empty) is emitted with an empty wire-serialization tag, not
with the field name. -/
theorem c2_tag_default_empty (line : List Char) (rest : List (List Char))
    (cblock : List (List Char)) (isOpt : Bool) (p0 p1 : List Char) (ps : List (List Char))
    (hsplit : pySplitWs (pyStrip line) = p0 :: p1 :: ps)
    (hne : p0 ≠ p1)
    (hcomment : isPref commentMark (pyStrip line) = false)
    (hjson : searchJsonTag ((tagsOf (pyStrip line)).getD []) = none) :
    processLines (line :: rest) cblock isOpt =
      mkSField p0 p1 (pyStrip line) isOpt :: processLines rest [] false ∧
    (mkSField p0 p1 (pyStrip line) isOpt).jsonTag = [] := by
  refine ⟨processLines_field_step line rest cblock isOpt p0 p1 ps hsplit hne hcomment, ?_⟩
  simp [mkSField, hjson]

theorem c2_tag_default_empty_witness :
    processLines [("\tName string").data] [] false =
      mkSField (("Name").data) (("string").data) (pyStrip (("\tName string").data)) false
        :: processLines [] [] false ∧
    (mkSField (("Name").data) (("string").data) (pyStrip (("\tName string").data)) false).jsonTag
      = [] :=
  c2_tag_default_empty (("\tName string").data) [] [] false (("Name").data) (("string").data) []
    (by decide) (by decide) (by decide) (by decide)

theorem foldl_extract_eq_filter_join (name : List Char) (l : List (List Char × List Char)) :
    ∀ init : List SField,
      l.foldl (fun acc nb => if nb.1 = name then acc ++ processStructBody nb.2 else acc) init =
        init ++ ((l.filter (fun nb => nb.1 = name)).map (fun nb => processStructBody nb.2)).flatten := by
  induction l with
  | nil => intro init; simp
  | cons nb rest ih =>
    intro init
    by_cases h : nb.1 = name
    · simp [h, ih, List.append_assoc]
    · simp [h, ih]

/-- C4, counterexample: a file text with two struct blocks of the same name;
the extractor's output differs from the records of the first block alone. -/
theorem c4_first_block_cex :
    extract_struct_fields c4content (("Foo").data) ≠
      specFirstBlockFields c4content (("Foo").data) := by decide

/-- C4, amended: every struct block whose declared name equals the target
contributes its field records, concatenated in document order; later blocks
with the same declared name are not skipped. -/
theorem c4_all_blocks_contribute (content : List Char) (structName : List Char) :
    extract_struct_fields content structName =
      (((findStructs content).filter (fun nb => nb.1 = structName)).map
        (fun nb => processStructBody nb.2)).flatten := by
  unfold extract_struct_fields
  rw [foldl_extract_eq_filter_join]
  simp

/-! ### Claims C9, C10 (struct-body extractor, line-level behavior) -/

/-- C9 (confirmed): a line holding exactly one backtick still yields a tag
text, namely the whole text after that backtick; tag-text extraction
succeeds for every line holding at least one backtick; and on a field
declaration line of that shape the emitted record's raw tag text is the
text after the backtick. -/
theorem c9_single_backtick_tag_total :
    (∀ a b : List Char, backtickChar ∉ a → backtickChar ∉ b →
      tagsOf (a ++ backtickChar :: b) = some b) ∧
    (∀ l : List Char, backtickChar ∈ l → (tagsOf l).isSome) ∧
    (∀ (line : List Char) (rest : List (List Char)) (cblock : List (List Char)) (isOpt : Bool)
        (p0 p1 : List Char) (ps : List (List Char)) (a b : List Char),
      pyStrip line = a ++ backtickChar :: b →
      backtickChar ∉ a → backtickChar ∉ b →
      pySplitWs (pyStrip line) = p0 :: p1 :: ps →
      p0 ≠ p1 →
      isPref commentMark (pyStrip line) = false →
      ∃ rs r, processLines (line :: rest) cblock isOpt = r :: rs ∧ r.structTags = b) := by
  refine ⟨tagsOf_single_backtick, tagsOf_isSome_of_backtick, ?_⟩
  intro line rest cblock isOpt p0 p1 ps a b hdec ha hb hsplit hne hcomment
  refine ⟨processLines rest [] false, mkSField p0 p1 (pyStrip line) isOpt,
    processLines_field_step line rest cblock isOpt p0 p1 ps hsplit hne hcomment, ?_⟩
  simp [mkSField, hdec, tagsOf_single_backtick a b ha hb]

theorem c9_single_backtick_tag_total_witness :
    tagsOf (("Name string ").data ++ backtickChar :: ("json").data) = some (("json").data) ∧
    (tagsOf (("Name string ").data ++ backtickChar :: ("json").data)).isSome ∧
    (∃ rs r, processLines [("Name string `json").data] [] false = r :: rs ∧
      r.structTags = ("json").data) :=
  ⟨c9_single_backtick_tag_total.1 (("Name string ").data) (("json").data)
      (by decide) (by decide),
   c9_single_backtick_tag_total.2.1 ((("Name string ").data ++ backtickChar :: ("json").data))
      (by decide),
   c9_single_backtick_tag_total.2.2 (("Name string `json").data) [] [] false
      (("Name").data) (("string").data) [("`json").data]
      (("Name string ").data) (("json").data)
      (by decide) (by decide) (by decide) (by decide) (by decide) (by decide)⟩

/-- Blank lines are fully transparent to the line loop: they change neither
the pending comment block nor the pending optional flag. -/
theorem processLines_skip_blanks (mid : List (List Char)) :
    ∀ (rest : List (List Char)) (cblock : List (List Char)) (isOpt : Bool),
      (∀ m ∈ mid, pyStrip m = []) →
      processLines (mid ++ rest) cblock isOpt = processLines rest cblock isOpt := by
  induction mid with
  | nil => intro rest cblock isOpt _; rfl
  | cons m mrest ih =>
    intro rest cblock isOpt h
    have hm : pyStrip m = [] := h m (List.mem_cons_self m mrest)
    have hrest := ih rest cblock isOpt (fun x hx => h x (List.mem_cons_of_mem m hx))
    simp only [List.cons_append, processLines, hm, if_pos rfl]
    exact hrest

/-- Blank and comment lines preserve a pending optional flag that is already
true; only the comment accumulator may change. -/
theorem processLines_skip_mid (mid : List (List Char)) :
    ∀ (rest : List (List Char)) (cblock : List (List Char)),
      (∀ m ∈ mid, pyStrip m = [] ∨ isPref commentMark (pyStrip m) = true) →
      ∃ cblock2, processLines (mid ++ rest) cblock true = processLines rest cblock2 true := by
  induction mid with
  | nil => intro rest cblock _; exact ⟨cblock, rfl⟩
  | cons m mrest ih =>
    intro rest cblock h
    have hrest := fun x hx => h x (List.mem_cons_of_mem m hx)
    rcases h m (List.mem_cons_self m mrest) with hblank | hcom
    · have ⟨cb2, he⟩ := ih rest cblock hrest
      refine ⟨cb2, ?_⟩
      rw [← he]
      simp only [List.cons_append, processLines, hblank, if_pos rfl]
      simp
    · have hnz : ¬(pyStrip m = []) := by
        intro e
        rw [e] at hcom
        exact absurd hcom (by decide)
      have ⟨cb2, he⟩ := ih rest (cblock ++ [pyStrip m]) hrest
      refine ⟨cb2, ?_⟩
      rw [← he]
      simp only [List.cons_append, processLines, if_neg hnz, hcom, if_pos rfl, Bool.true_or]
      simp

/-- C10 (confirmed): blank lines inside a struct body reset nothing (first
conjunct: the walk is unchanged by them, comment block and flag included),
and a field declaration separated from an optional-marked comment line only
by blank lines and further comment lines is still emitted with
optional = true (second conjunct). -/
theorem c10_blanks_preserve_pending :
    (∀ (mid rest : List (List Char)) (cblock : List (List Char)) (isOpt : Bool),
      (∀ m ∈ mid, pyStrip m = []) →
      processLines (mid ++ rest) cblock isOpt = processLines rest cblock isOpt) ∧
    (∀ (c0 : List Char) (mid : List (List Char)) (line : List Char) (rest : List (List Char))
        (cblock : List (List Char)) (p0 p1 : List Char) (ps : List (List Char)),
      isPref commentMark (pyStrip c0) = true →
      hasSubstr optMarker (pyStrip c0) = true →
      (∀ m ∈ mid, pyStrip m = [] ∨ isPref commentMark (pyStrip m) = true) →
      pySplitWs (pyStrip line) = p0 :: p1 :: ps →
      p0 ≠ p1 →
      isPref commentMark (pyStrip line) = false →
      ∃ rs r, processLines (c0 :: (mid ++ line :: rest)) cblock false = r :: rs ∧
        r.optional = true) := by
  refine ⟨processLines_skip_blanks, ?_⟩
  intro c0 mid line rest cblock p0 p1 ps hc0 hopt hmid hsplit hne hcomment
  have hnz : ¬(pyStrip c0 = []) := by
    intro e
    rw [e] at hc0
    exact absurd hc0 (by decide)
  have hstep : processLines (c0 :: (mid ++ line :: rest)) cblock false =
      processLines (mid ++ line :: rest) (cblock ++ [pyStrip c0]) true := by
    simp only [processLines, if_neg hnz, hc0, if_pos rfl, hopt, Bool.false_or]
    simp
  obtain ⟨cb2, hmids⟩ := processLines_skip_mid mid (line :: rest) (cblock ++ [pyStrip c0]) hmid
  refine ⟨processLines rest [] false, mkSField p0 p1 (pyStrip line) true, ?_, ?_⟩
  · rw [hstep, hmids, processLines_field_step line rest cb2 true p0 p1 ps hsplit hne hcomment]
  · simp [mkSField]

theorem c10_blanks_preserve_pending_witness :
    processLines ([[], (" ").data] ++ [("A int").data]) [] false =
      processLines [("A int").data] [] false ∧
    (∃ rs r, processLines (("// +optional").data ::
        ([[], ("  ").data, ("// more doc").data] ++ [("Name string").data])) [] false = r :: rs ∧
      r.optional = true) :=
  ⟨c10_blanks_preserve_pending.1 [[], (" ").data] [("A int").data] [] false (by decide),
   c10_blanks_preserve_pending.2 (("// +optional").data)
      [[], ("  ").data, ("// more doc").data] (("Name string").data) [] []
      (("Name").data) (("string").data) []
      (by decide) (by decide) (by decide) (by decide) (by decide) (by decide)⟩

/-! ### Claim C3 (find_struct_file error behavior) -/

/-- The fallback scan returns a normal result whenever every scanned path is
present in the file table, undecodable files included: the only failure mode
it does not catch is a path that is no readable file at all, such as a
directory matched by the glob. -/
theorem scanGlob_ok (fs : PyFS) (kind : List Char) (paths : List (List Char))
    (h : ∀ p ∈ paths, (pyLookup fs.files p).isSome) :
    ∃ r, scanGlobForStruct fs kind paths = Except.ok r := by
  induction paths with
  | nil => exact ⟨none, rfl⟩
  | cons p rest ih =>
    have hrest := ih (fun x hx => h x (List.mem_cons_of_mem p hx))
    have hp := h p (List.mem_cons_self p rest)
    by_cases hskip : (hasSubstr testStr p || hasSubstr generatedStr p) = true
    · obtain ⟨r, hr⟩ := hrest
      exact ⟨r, by simp only [scanGlobForStruct, if_pos hskip]; exact hr⟩
    · cases hl : pyLookup fs.files p with
      | none => rw [hl] at hp; cases hp
      | some oc =>
        cases oc with
        | none =>
          obtain ⟨r, hr⟩ := hrest
          refine ⟨r, ?_⟩
          simp only [scanGlobForStruct, if_neg hskip]
          rw [show pyRead fs p = Except.error PyErr.unicodeDecodeError from by
            simp [pyRead, hl]]
          exact hr
        | some c =>
          by_cases hfound : ((findStructs c).any (fun nb => nb.1 = kind)) = true
          · refine ⟨some p, ?_⟩
            simp only [scanGlobForStruct, if_neg hskip]
            rw [show pyRead fs p = Except.ok c from by simp [pyRead, hl]]
            simp [hfound]
          · obtain ⟨r, hr⟩ := hrest
            refine ⟨r, ?_⟩
            simp only [scanGlobForStruct, if_neg hskip]
            rw [show pyRead fs p = Except.ok c from by simp [pyRead, hl]]
            simp only [hfound, Bool.false_eq_true, if_false]
            exact hr

/-- The expected-path loop returns a normal result when every existing
expected path is a readable decodable file. -/
theorem scanPaths_ok (fs : PyFS) (kind : List Char) (sp : List (List Char))
    (h : ∀ p ∈ sp, pyExists fs p = true → ∃ c, pyLookup fs.files p = some (some c)) :
    ∃ r, scanPathsForStruct fs kind sp = Except.ok r := by
  induction sp with
  | nil => exact ⟨none, rfl⟩
  | cons p rest ih =>
    have hrest := ih (fun x hx hex => h x (List.mem_cons_of_mem p hx) hex)
    by_cases hex : pyExists fs p = true
    · obtain ⟨c, hc⟩ := h p (List.mem_cons_self p rest) hex
      by_cases hfound : ((findStructs c).any (fun nb => nb.1 = kind)) = true
      · refine ⟨some p, ?_⟩
        simp only [scanPathsForStruct, if_pos hex]
        rw [show pyRead fs p = Except.ok c from by simp [pyRead, hc]]
        simp [hfound]
      · obtain ⟨r, hr⟩ := hrest
        refine ⟨r, ?_⟩
        simp only [scanPathsForStruct, if_pos hex]
        rw [show pyRead fs p = Except.ok c from by simp [pyRead, hc]]
        simp only [hfound, Bool.false_eq_true, if_false]
        exact hr
    · obtain ⟨r, hr⟩ := hrest
      exact ⟨r, by simp only [scanPathsForStruct, if_neg hex]; exact hr⟩

/-- C3, counterexample: with an empty corpus and the named group apps, the
os.listdir probe of the missing root directory pkg/apis raises an OSError
that escapes find_struct_file, instead of being caught and treated as
not-found. -/
theorem c3_exception_escapes_cex :
    find_struct_file emptyFS (("apps").data) (("Deployment").data) =
      Except.error PyErr.osError := by rfl

/-- C3, amended: the only caught failure is a UnicodeDecodeError during the
fallback scan (silently skipped, the file treated as not-found): whenever
every scanned fallback path is present in the file table, decodable or not,
the fallback scan returns normally (first conjunct).  Every other failure
escapes: a missing root directory during the expected-path probe of a named
group, a read or decode failure on an existing expected path, and, in the
fallback scan itself, an IsADirectoryError from opening a directory whose
name ends in .go and which the recursive glob therefore lists -- the third
conjunct evaluates that escape on a snapshot holding such a directory.
When the probe succeeds, every existing expected path reads as text, and
every glob match of both roots is a file, no exception escapes
find_struct_file (second conjunct). -/
theorem c3_only_decode_errors_caught :
    (∀ (fs : PyFS) (kind : List Char) (paths : List (List Char)),
      (∀ p ∈ paths, (pyLookup fs.files p).isSome) →
      ∃ r, scanGlobForStruct fs kind paths = Except.ok r) ∧
    (∀ (fs : PyFS) (group kind : List Char) (sp : List (List Char)),
      computeSearchPaths fs group = Except.ok sp →
      (∀ p ∈ sp, pyExists fs p = true → ∃ c, pyLookup fs.files p = some (some c)) →
      (∀ p ∈ globGo fs pkgApisDir, (pyLookup fs.files p).isSome) →
      (∀ p ∈ globGo fs stagingApiDir, (pyLookup fs.files p).isSome) →
      ∃ r, find_struct_file fs group kind = Except.ok r) ∧
    scanGlobForStruct dirGoFS (("Pod").data) (globGo dirGoFS pkgApisDir) =
      Except.error PyErr.osError := by
  refine ⟨?_, ?_, ?_⟩
  · intro fs kind paths h
    exact scanGlob_ok fs kind paths h
  · intro fs group kind sp hsp hgood hg1 hg2
    obtain ⟨r1, h1⟩ := scanPaths_ok fs kind sp hgood
    obtain ⟨r2, h2⟩ := scanGlob_ok fs kind (globGo fs pkgApisDir) hg1
    obtain ⟨r3, h3⟩ := scanGlob_ok fs kind (globGo fs stagingApiDir) hg2
    cases r1 with
    | some p => exact ⟨some p, by simp only [find_struct_file, hsp, h1]⟩
    | none =>
      cases r2 with
      | some p => exact ⟨some p, by simp only [find_struct_file, hsp, h1, h2]⟩
      | none =>
        cases r3 with
        | some p => exact ⟨some p, by simp only [find_struct_file, hsp, h1, h2, h3]⟩
        | none => exact ⟨none, by simp only [find_struct_file, hsp, h1, h2, h3]⟩
  · rfl

theorem c3_only_decode_errors_caught_witness :
    (∃ r, scanGlobForStruct emptyFS (("Pod").data) [] = Except.ok r) ∧
    (∃ r, find_struct_file emptyFS [] (("Pod").data) = Except.ok r) :=
  ⟨c3_only_decode_errors_caught.1 emptyFS (("Pod").data) []
     (by intro p hp; exact absurd hp (List.not_mem_nil p)),
   c3_only_decode_errors_caught.2.1 emptyFS [] (("Pod").data) [corePath1, corePath2]
     (by rfl)
     (by intro p hp hex; simp [pyExists, pyLookup, emptyFS] at hex)
     (by intro p hp; simp [globGo, emptyFS] at hp)
     (by intro p hp; simp [globGo, emptyFS] at hp)⟩


/-! ### Supporting lemmas for the schema-tree extractor -/

/-- The record of any non-skipped property of a schema occurs in the
recursive output. -/
theorem mem_getFieldsFuel (g k : String) (fuel : Nat) (schema : J) (path : String)
    (name : String) (d : J)
    (hmem : (name, d) ∈ jProperties schema)
    (hskip : ¬((name = kApiVersion ∨ name = kKind) ∧ path = "")) :
    mkField g k schema (extPath path name) name d ∈
      getFieldsFuel g k (fuel + 1) schema path := by
  simp only [getFieldsFuel]
  apply List.mem_flatten.mpr
  refine ⟨_, List.mem_map_of_mem _ hmem, ?_⟩
  simp only [if_neg hskip]
  exact List.mem_cons_self _ _

/-- Records of the recursion into a property's own nested properties occur
in the recursive output one level up. -/
theorem mem_getFieldsFuel_child_props (g k : String) (fuel : Nat) (schema : J)
    (path : String) (name : String) (d : J) (r : FieldRec)
    (hmem : (name, d) ∈ jProperties schema)
    (hskip : ¬((name = kApiVersion ∨ name = kKind) ∧ path = ""))
    (hp : jHasKey d kProperties = true)
    (hr : r ∈ getFieldsFuel g k fuel d (extPath path name)) :
    r ∈ getFieldsFuel g k (fuel + 1) schema path := by
  simp only [getFieldsFuel]
  apply List.mem_flatten.mpr
  refine ⟨_, List.mem_map_of_mem _ hmem, ?_⟩
  simp only [if_neg hskip]
  apply List.mem_cons_of_mem
  rw [if_pos hp]
  exact hr

/-- Records of the recursion into an allOf member with properties (reached
when the property has no own properties key) occur in the recursive output
one level up. -/
theorem mem_getFieldsFuel_child_allOf (g k : String) (fuel : Nat) (schema : J)
    (path : String) (name : String) (d : J) (sub : J) (r : FieldRec)
    (hmem : (name, d) ∈ jProperties schema)
    (hskip : ¬((name = kApiVersion ∨ name = kKind) ∧ path = ""))
    (hnp : jHasKey d kProperties = false)
    (hsub : sub ∈ jArrD (jGetD d kAllOf))
    (hsp : jHasKey sub kProperties = true)
    (hr : r ∈ getFieldsFuel g k fuel sub (extPath path name)) :
    r ∈ getFieldsFuel g k (fuel + 1) schema path := by
  have hao : jHasKey d kAllOf = true := by
    cases hg : jGet d kAllOf with
    | none =>
      exfalso
      rw [jGetD, hg] at hsub
      simp [jArrD] at hsub
    | some v => simp [jHasKey, hg]
  simp only [getFieldsFuel]
  apply List.mem_flatten.mpr
  refine ⟨_, List.mem_map_of_mem _ hmem, ?_⟩
  simp only [if_neg hskip]
  apply List.mem_cons_of_mem
  rw [if_neg (by simp [hnp]), if_pos hao]
  apply List.mem_flatten.mpr
  exact ⟨_, List.mem_map_of_mem _ (List.mem_filter.mpr ⟨hsub, hsp⟩), hr⟩

/-! ### Claims C5, C8, C7, C6 (schema-tree extractor) -/

/-- C5 (confirmed): at every level of the schema walk, the record emitted for
a non-skipped property has optional = false exactly when that level's
required list names the property (first conjunct), and the root example of
spec testable property 6 yields exactly one record: path a, type string,
optional false (second conjunct). -/
theorem c5_required_gives_optional_false :
    (∀ (g k : String) (fuel : Nat) (schema : J) (path name : String) (d : J),
      (name, d) ∈ jProperties schema →
      ¬((name = kApiVersion ∨ name = kKind) ∧ path = "") →
      ∃ r, r ∈ getFieldsFuel g k (fuel + 1) schema path ∧
        r.path = extPath path name ∧
        (r.optional = false ↔
          (jHasKey schema kRequired = true ∧
            jMemStr name (jGetD schema kRequired) = true))) ∧
    get_fields_from_schema ("") ("") c5schema ("") =
      [{ group := "", kind := "", path := "a", type := "string", jsonTag := "a",
         optional := false, description := "" }] := by
  constructor
  · intro g k fuel schema path name d hmem hskip
    refine ⟨mkField g k schema (extPath path name) name d,
      mem_getFieldsFuel g k fuel schema path name d hmem hskip, rfl, ?_⟩
    simp only [mkField]
    cases h1 : jHasKey schema kRequired <;>
      cases h2 : jMemStr name (jGetD schema kRequired) <;> simp
  · decide

theorem c5_required_gives_optional_false_witness :
    ∃ r, r ∈ getFieldsFuel ("") ("") 1 c5schema ("") ∧
      r.path = extPath ("") ("a") ∧
      (r.optional = false ↔
        (jHasKey c5schema kRequired = true ∧
          jMemStr ("a") (jGetD c5schema kRequired) = true)) :=
  c5_required_gives_optional_false.1 ("") ("") 0 c5schema ("") ("a")
    (J.obj [(kType, J.str ("string"))]) (List.Mem.head _) (by decide)

/-- C8 (confirmed): a property with no ref and no allOf-ref whose type is
array and which carries an items schema is emitted with type equal to
array-of its item type, the item type computed from the items schema's ref,
else allOf-ref, else plain type (first conjunct); the ref-items example of
spec testable property 7 yields type array of Foo (second conjunct). -/
theorem c8_array_of_ref_type :
    (∀ (g k : String) (fuel : Nat) (schema : J) (path name : String) (d : J),
      (name, d) ∈ jProperties schema →
      ¬((name = kApiVersion ∨ name = kKind) ∧ path = "") →
      jGet d kRef = none →
      allOfRefOf d = none →
      jGet d kType = some (J.str kArray) →
      jHasKey d kItems = true →
      ∃ r, r ∈ getFieldsFuel g k (fuel + 1) schema path ∧
        r.path = extPath path name ∧
        r.type = ("array of ") ++ itemTypeOf (jGetD d kItems)) ∧
    get_fields_from_schema ("") ("") c8schema ("") =
      [{ group := "", kind := "", path := "items", type := "array of Foo",
         jsonTag := "items", optional := true, description := "" }] := by
  constructor
  · intro g k fuel schema path name d hmem hskip href hao htype hitems
    refine ⟨mkField g k schema (extPath path name) name d,
      mem_getFieldsFuel g k fuel schema path name d hmem hskip, rfl, ?_⟩
    simp only [mkField, typeOf, href, hao, htype]
    simp [jStrD, hitems, kArray]
  · decide

theorem c8_array_of_ref_type_witness :
    ∃ r, r ∈ getFieldsFuel ("") ("") 1 c8schema ("") ∧
      r.path = extPath ("") ("items") ∧
      r.type = ("array of ") ++
        itemTypeOf (jGetD (J.obj
          [(kType, J.str kArray),
           (kItems, J.obj [(kRef, J.str ("#/components/schemas/Foo"))])]) kItems) :=
  c8_array_of_ref_type.1 ("") ("") 0 c8schema ("") ("items")
    (J.obj [(kType, J.str kArray),
            (kItems, J.obj [(kRef, J.str ("#/components/schemas/Foo"))])])
    (List.Mem.head _) (by decide) rfl rfl rfl rfl

/-- C7, counterexample: a root property with the empty name (whose own
extended path is therefore empty) and an allOf member declaring property x;
the member property is emitted with path x, not with the claimed parent
path followed by a dot and x (which would be .x). -/
theorem c7_allof_member_path_cex :
    (get_fields_from_schema ("") ("") c7schema ("")).map FieldRec.path = [(""), ("x")] ∧
    ((get_fields_from_schema ("") ("") c7schema ("")).map FieldRec.path).contains (".x")
      = false := by decide

/-- C7, amended: when a property with no own properties key has an allOf
member carrying properties, the walk recurses into that member with the
property's extended path unchanged, so each member property is emitted with
path equal to the parent property's path followed by a dot and its name --
provided the parent property's extended path is nonempty.  (When that path
is empty, which happens only for a root property with empty name, member
properties are emitted under their bare names and the root envelope skip
applies inside the member, as the counterexample shows.) -/
theorem c7_allof_same_path (g k : String) (fuel : Nat) (schema : J) (path : String)
    (pname : String) (d sub : J) (mname : String) (md : J)
    (hmem : (pname, d) ∈ jProperties schema)
    (hskip : ¬((pname = kApiVersion ∨ pname = kKind) ∧ path = ""))
    (hnp : jHasKey d kProperties = false)
    (hsub : sub ∈ jArrD (jGetD d kAllOf))
    (hsp : jHasKey sub kProperties = true)
    (hmm : (mname, md) ∈ jProperties sub)
    (hfp : extPath path pname ≠ "") :
    mkField g k sub (extPath path pname ++ (".") ++ mname) mname md ∈
      getFieldsFuel g k (fuel + 2) schema path := by
  have h1 : mkField g k sub (extPath (extPath path pname) mname) mname md ∈
      getFieldsFuel g k (fuel + 1) sub (extPath path pname) :=
    mem_getFieldsFuel g k fuel sub (extPath path pname) mname md hmm
      (fun hcon => hfp hcon.2)
  have h2 : ∀ A : String, A ≠ "" → extPath A mname = A ++ (".") ++ mname := by
    intro A hA
    unfold extPath
    rw [if_neg hA]
  rw [h2 _ hfp] at h1
  exact mem_getFieldsFuel_child_allOf g k (fuel + 1) schema path pname d sub _
    hmem hskip hnp hsub hsp h1

theorem c7_allof_same_path_witness :
    mkField ("") ("")
      (J.obj [(kProperties, J.obj [(("x"), J.obj [(kType, J.str ("string"))])])])
      (extPath ("") ("spec") ++ (".") ++ ("x")) ("x")
      (J.obj [(kType, J.str ("string"))]) ∈
    getFieldsFuel ("") ("") 2 c7schemaGood ("") :=
  c7_allof_same_path ("") ("") 0 c7schemaGood ("") ("spec")
    (J.obj [(kAllOf, J.arr [J.obj [(kProperties, J.obj
      [(("x"), J.obj [(kType, J.str ("string"))])])]])])
    (J.obj [(kProperties, J.obj [(("x"), J.obj [(kType, J.str ("string"))])])])
    ("x") (J.obj [(kType, J.str ("string"))])
    (List.Mem.head _) (by decide) rfl (List.Mem.head _) rfl (List.Mem.head _)
    (by decide)

theorem flatten_map_skip {α β : Type} (f : α → List β) (keep : α → Bool)
    (h : ∀ a, keep a = false → f a = []) : ∀ l : List α,
    (l.map f).flatten = ((l.filter keep).map f).flatten := by
  intro l
  induction l with
  | nil => rfl
  | cons a as ih =>
    cases hk : keep a
    · simp [List.filter_cons, hk, h a hk, ih]
    · simp [List.filter_cons, hk, ih]

/-- C6 (confirmed): apiVersion and kind properties are dropped exactly when
the path prefix is empty.  First conjunct: at the root, the walk's output is
unchanged by deleting those properties from the property list, so they
produce no record and no recursion.  Second conjunct: at any non-empty path
prefix such a property is emitted like any other, and, when it has nested
properties, the records of the recursion into it are included. -/
theorem c6_envelope_root_only :
    (∀ (g k : String) (fuel : Nat) (props rest : List (String × J)),
      getFieldsFuel g k fuel (J.obj ((kProperties, J.obj props) :: rest)) ("") =
        getFieldsFuel g k fuel (J.obj ((kProperties, J.obj (props.filter
          (fun p => !(decide (p.1 = kApiVersion ∨ p.1 = kKind))))) :: rest)) ("")) ∧
    (∀ (g k : String) (fuel : Nat) (schema : J) (path name : String) (d : J),
      path ≠ "" → (name = kApiVersion ∨ name = kKind) →
      (name, d) ∈ jProperties schema →
      mkField g k schema (extPath path name) name d ∈
        getFieldsFuel g k (fuel + 1) schema path ∧
      (jHasKey d kProperties = true →
        ∀ r ∈ getFieldsFuel g k fuel d (extPath path name),
          r ∈ getFieldsFuel g k (fuel + 1) schema path)) := by
  constructor
  · intro g k fuel props rest
    cases fuel with
    | zero => rfl
    | succ m =>
      have hp1 : jProperties (J.obj ((kProperties, J.obj props) :: rest)) = props := by
        simp [jProperties, jGet, jLookup]
      have hp2 : jProperties (J.obj ((kProperties, J.obj (props.filter
          (fun p => !(decide (p.1 = kApiVersion ∨ p.1 = kKind))))) :: rest)) =
          props.filter (fun p => !(decide (p.1 = kApiVersion ∨ p.1 = kKind))) := by
        simp [jProperties, jGet, jLookup]
      have hq1 : jGet (J.obj ((kProperties, J.obj props) :: rest)) kRequired =
          jLookup rest kRequired := by
        simp [jGet, jLookup, (by decide : ¬(kProperties = kRequired))]
      have hq2 : jGet (J.obj ((kProperties, J.obj (props.filter
          (fun p => !(decide (p.1 = kApiVersion ∨ p.1 = kKind))))) :: rest)) kRequired =
          jLookup rest kRequired := by
        simp [jGet, jLookup, (by decide : ¬(kProperties = kRequired))]
      have hmk : ∀ (fp n : String) (d : J),
          mkField g k (J.obj ((kProperties, J.obj (props.filter
            (fun p => !(decide (p.1 = kApiVersion ∨ p.1 = kKind))))) :: rest)) fp n d =
          mkField g k (J.obj ((kProperties, J.obj props) :: rest)) fp n d := by
        intro fp n d
        unfold mkField jHasKey jGetD
        rw [hq1, hq2]
      simp only [getFieldsFuel, hp1, hp2, hmk]
      apply flatten_map_skip
      intro a ha
      simp only [Bool.not_eq_false', decide_eq_true_eq] at ha
      rcases ha with h | h <;> simp [h]
  · intro g k fuel schema path name d hpath henv hmem
    have hskip : ¬((name = kApiVersion ∨ name = kKind) ∧ path = "") :=
      fun hcon => hpath hcon.2
    exact ⟨mem_getFieldsFuel g k fuel schema path name d hmem hskip,
      fun hp r hr =>
        mem_getFieldsFuel_child_props g k fuel schema path name d r hmem hskip hp hr⟩

theorem c6_envelope_root_only_witness :
    (getFieldsFuel ("") ("") 1 (J.obj ((kProperties, J.obj
        [(kApiVersion, J.str ("v1"))]) :: [])) ("") =
      getFieldsFuel ("") ("") 1 (J.obj ((kProperties, J.obj
        ([(kApiVersion, J.str ("v1"))].filter
          (fun p => !(decide (p.1 = kApiVersion ∨ p.1 = kKind))))) :: [])) ("")) ∧
    (mkField ("") ("")
        (J.obj [(kProperties, J.obj [(kKind, J.str ("string"))])])
        (extPath ("spec") kKind) kKind (J.str ("string")) ∈
      getFieldsFuel ("") ("") 1
        (J.obj [(kProperties, J.obj [(kKind, J.str ("string"))])]) ("spec")) :=
  ⟨c6_envelope_root_only.1 ("") ("") 1 [(kApiVersion, J.str ("v1"))] [],
   ((c6_envelope_root_only.2 ("") ("") 0
      (J.obj [(kProperties, J.obj [(kKind, J.str ("string"))])])
      ("spec") kKind (J.str ("string"))
      (by decide) (Or.inr rfl) (List.Mem.head _)).1)⟩
